import Mathlib

/-!
Verification of the `sqlsess` session store (src/db.go).

The store persists session attributes in one relation with columns
(id, name, key, value) and tracks session identity via a secure cookie.
We shallowly embed the data model and the operations `Save`, `New`,
`Delete`, `Clean`, `id`/`readCookie` and `SetKeys` as executable Lean
functions, then prove the claims of the specification about them.

Modelling conventions:
- a database state is a list of rows; SQL `DELETE ... WHERE` is a filter,
  `INSERT` appends, a `SELECT` is a filter+map over the snapshot;
- a Go `map[interface{}]interface{}` session value bag is an association
  list with replace-on-insert (`mapInsert`), keys distinct;
- values stored in the `value` column are `GoValue`s: either a string or a
  Go `time.Time` (represented by an integer instant).  `Save` stores
  `time.Now().UTC()` itself (a `time` value, not formatted text), exactly
  as the source does on line 134 of src/db.go;
- transactions: every error path of `Save` in the source calls
  `tx.Rollback()` and returns, so a failed transactional step leaves the
  visible database unchanged; fault injection (`SaveFaults`) decides which
  step fails;
- time is an integer instant (nanoseconds); `time.Parse` of the cleanup
  sweep is an explicit parameter `parse : String → Option Int` because the
  parser lives in the Go standard library, outside this repository.  A
  `time` value reaching `rows.Scan(&last)` (a string destination) cannot
  yield RFC3339Nano text, so the parse step of the loop fails on it.
-/

/-- A value stored in the `value` column or in a session value bag:
either a string, or a Go `time.Time` (an integer instant).  The source
puts both into `sess.Values`. -/
inductive GoValue where
  | str : String → GoValue
  | time : Int → GoValue
deriving DecidableEq

/-- One row of the `sess_session` relation: (id, name, key, value). -/
structure Row where
  id : String
  name : String
  key : String
  value : GoValue
deriving DecidableEq

/-- The database state: the bag of rows currently in the relation. -/
abbrev Db := List Row

/-- An in-memory session value bag (`sess.Values`), as an association list. -/
abbrev Values := List (String × GoValue)

/-- The reserved last-updated marker key (`SessionLastUpdated` in src/db.go). -/
def SessionLastUpdated : String := "__sess_last_updated"

/-- The keys of a value bag. -/
def keys (m : Values) : List String := m.map Prod.fst

/-- Go map indexing `m[k]`. -/
def mapLookup (m : Values) (k : String) : Option GoValue :=
  match m with
  | [] => none
  | (k2, v) :: rest => if k2 = k then some v else mapLookup rest k

/-- Go map assignment `m[k] = v`: replace the binding for `k` in place if
present, otherwise add it. -/
def mapInsert (m : Values) (k : String) (v : GoValue) : Values :=
  match m with
  | [] => [(k, v)]
  | (k2, v2) :: rest =>
    if k2 = k then (k, v) :: rest else (k2, v2) :: mapInsert rest k v

/-- The rows of the relation matching `id` and `name`
(`SELECT ... WHERE id = $1 AND name = $2`). -/
def rowsFor (db : Db) (id name : String) : Db :=
  db.filter (fun r => r.id == id && r.name == name)

/-- The rows of the relation matching `id`, across all names. -/
def rowsOfId (db : Db) (id : String) : Db :=
  db.filter (fun r => r.id == id)

/-- The statement `DELETE FROM sess_session WHERE id = $1`: removes every row for `id`,
regardless of name (src/db.go lines 85 and 140). -/
def deleteAll (db : Db) (id : String) : Db :=
  db.filter (fun r => !(r.id == id))

/-- Deletion, `Store.Delete` (src/db.go lines 83-87): one `DELETE ... WHERE id = $1`,
returning the SQL error if the statement itself fails (`sqlFail`); a
delete that matches zero rows is not an SQL error. -/
def deleteRun (sqlFail : Bool) (db : Db) (id : String) : Option Db :=
  if sqlFail then none else some (deleteAll db id)

/-- Which step of the transaction of `Save` fails, for fault injection:
`Begin`, the `DELETE`, the `Prepare`, each per-key `INSERT`, `Commit`. -/
structure SaveFaults where
  beginFail : Bool
  deleteFail : Bool
  prepareFail : Bool
  insertFail : String → Bool
  commitFail : Bool

/-- No step fails. -/
def noFaults : SaveFaults := ⟨false, false, false, fun _ => false, false⟩

/-- Only `Begin` fails. -/
def beginFailCfg : SaveFaults := ⟨true, false, false, fun _ => false, false⟩

/-- Every `INSERT` fails. -/
def insertFailCfg : SaveFaults := ⟨false, false, false, fun _ => true, false⟩

/-- The insert loop of `Save` (src/db.go lines 156-161): one prepared
`INSERT` per entry of the value bag, appended to the pending
transaction state; a failing insert aborts the loop. -/
def runInserts (f : SaveFaults) (id name : String) :
    Values → Db → Option Db
  | [], txDb => some txDb
  | (k, v) :: rest, txDb =>
    if f.insertFail k then none
    else runInserts f id name rest (txDb ++ [⟨id, name, k, v⟩])

/-- The rows inserted for a value bag bound to (id, name). -/
def insertRows (id name : String) (vals : Values) : List Row :=
  vals.map (fun kv => ⟨id, name, kv.1, kv.2⟩)

/-- The transaction of `Save` (src/db.go lines 135-162): begin, delete
every row for `id` (by id alone), prepare, insert one row per value-bag
entry, commit.  `none` means some step failed; the source calls
`tx.Rollback()` and returns the error on every such path, so the pending
state is discarded. -/
def saveTx (f : SaveFaults) (db : Db) (id name : String)
    (stamped : Values) : Option Db :=
  if f.beginFail then none
  else if f.deleteFail then none
  else if f.prepareFail then none
  else
    match runInserts f id name stamped (deleteAll db id) with
    | none => none
    | some txDb => if f.commitFail then none else some txDb

/-- The observable outcome of one `Save` call: whether it returned an
error, the visible database afterwards, and whether a `Set-Cookie` was
emitted on the response. -/
structure SaveResult where
  err : Bool
  db : Db
  cookieSet : Bool

/-- Saving, `Store.Save` (src/db.go lines 123-163).  In source order: write the
identity cookie onto the response (`writeCookie` sets it only when
`securecookie.Encode` succeeds, modelled by `encodeOk`, and swallows an
encode failure); stamp `sess.Values[SessionLastUpdated] = time.Now().UTC()`
(a `time` value); then run the replacement transaction.  A transaction
failure is returned as the error of the call with the database unchanged. -/
def saveGo (encodeOk : Bool) (f : SaveFaults) (db : Db)
    (id name : String) (values : Values) (now : Int) : SaveResult :=
  let cookieSet := encodeOk
  let stamped := mapInsert values SessionLastUpdated (GoValue.time now)
  match saveTx f db id name stamped with
  | none => ⟨true, db, cookieSet⟩
  | some txDb => ⟨false, txDb, cookieSet⟩

/-- The load of `Store.New` (src/db.go lines 100-119): start from the
empty value bag of a fresh session and insert every (key, value) row matching
(id, name), in row order. -/
def newSession (db : Db) (id name : String) : Values :=
  ((rowsFor db id name).map (fun r => (r.key, r.value))).foldl
    (fun acc kv => mapInsert acc kv.1 kv.2) []

/-- The scan of the sweep (src/db.go lines 51-55):
`SELECT id, value FROM sess_session WHERE key = $1` with the reserved
marker key. -/
def scanLastUpdated (db : Db) : List (String × GoValue) :=
  (db.filter (fun r => r.key == SessionLastUpdated)).map
    (fun r => (r.id, r.value))

/-- The row loop of the sweep (src/db.go lines 62-79): for each scanned
(id, value) pair, scan the value into a string and parse it with
`time.Parse(time.RFC3339Nano, ...)` (the parameter `parse`); a value that
is a Go `time` instant rather than RFC3339Nano text fails this step.  An
id whose instant is strictly before the cutoff has all its rows deleted
immediately; any failure aborts the sweep with an error (`none`). -/
def cleanLoop (parse : String → Option Int) (cutoff : Int) :
    List (String × GoValue) → Db → Option Db
  | [], db => some db
  | (id, v) :: rest, db =>
    match v with
    | GoValue.time _ => none
    | GoValue.str s =>
      match parse s with
      | none => none
      | some t =>
        if t < cutoff then cleanLoop parse cutoff rest (deleteAll db id)
        else cleanLoop parse cutoff rest db

/-- Cleanup, `Store.Clean` (src/db.go lines 47-81): scan the last-updated markers,
compute `cutoff = now - inactive`, and run the row loop. -/
def clean (parse : String → Option Int) (db : Db)
    (inactive now : Int) : Option Db :=
  cleanLoop parse (now - inactive) (scanLastUpdated db) db

/-- An id is stale for the sweep: some scanned marker for it is a string
parsing to an instant strictly before the cutoff. -/
def staleB (parse : String → Option Int) (cutoff : Int)
    (ms : List (String × GoValue)) (id : String) : Bool :=
  ms.any (fun m =>
    m.1 == id &&
      (match m.2 with
       | GoValue.str s =>
         (match parse s with
          | some t => decide (t < cutoff)
          | none => false)
       | GoValue.time _ => false))

/-- Every scanned marker is a string that the timestamp parser accepts. -/
def allParse (parse : String → Option Int)
    (ms : List (String × GoValue)) : Bool :=
  ms.all (fun m =>
    match m.2 with
    | GoValue.str s => (parse s).isSome
    | GoValue.time _ => false)

/-- Cookie reading, `Store.readCookie` (src/db.go lines 205-213): the decoded cookie
value, or the empty string when the cookie is absent (`cookie = none`) or
its decode fails. -/
def readCookie (cookie : Option String)
    (decode : String → Option String) : String :=
  match cookie with
  | none => ""
  | some raw =>
    match decode raw with
    | none => ""
    | some v => v

/-- Identity resolution, `Store.id` (src/db.go lines 167-173): take the
session id carried by the cookie;
if it is empty (absent cookie or failed decode), use a freshly generated
identity (`securecookie.GenerateRandomKey(64)`, the parameter `fresh`). -/
def storeId (cookie : Option String) (decode : String → Option String)
    (fresh : String) : String :=
  let id := readCookie cookie decode
  if id.length == 0 then fresh else id

/-- The Go `len(block)` of a possibly-nil byte slice. -/
def goLen (block : Option (List Nat)) : Nat :=
  match block with
  | none => 0
  | some b => b.length

/-- The `validLen` check of `SetKeys` (src/db.go line 192). -/
def validBlockLen (block : Option (List Nat)) : Bool :=
  goLen block == 16 || goLen block == 24 || goLen block == 32

/-- Whether `SetKeys` panics (src/db.go lines 193-195):
`block != nil && !validLen`. -/
def setKeysPanics (block : Option (List Nat)) : Bool :=
  block.isSome && !(validBlockLen block)

/-- Key installation, `Store.SetKeys` (src/db.go lines 191-197): `none` models the panic;
otherwise both keys are installed. -/
def setKeys (hash : List Nat) (block : Option (List Nat)) :
    Option (List Nat × Option (List Nat)) :=
  if setKeysPanics block then none else some (hash, block)

/-! ### Helper lemmas -/

/-- A failed transaction leaves the visible database unchanged: every
error path of `Save` rolls back. -/
theorem saveGo_err_db_unchanged (encodeOk : Bool) (f : SaveFaults)
    (db : Db) (id name : String) (values : Values) (now : Int)
    (h : (saveGo encodeOk f db id name values now).err = true) :
    (saveGo encodeOk f db id name values now).db = db := by
  rcases hs : saveTx f db id name
      (mapInsert values SessionLastUpdated (GoValue.time now)) with _ | txDb
  · simp [saveGo, hs]
  · simp [saveGo, hs] at h

/-- The cookie flag of `Save` is exactly the encode outcome, on every
path: the cookie write precedes the transaction and ignores its fate. -/
theorem saveGo_cookieSet (encodeOk : Bool) (f : SaveFaults)
    (db : Db) (id name : String) (values : Values) (now : Int) :
    (saveGo encodeOk f db id name values now).cookieSet = encodeOk := by
  rcases hs : saveTx f db id name
      (mapInsert values SessionLastUpdated (GoValue.time now)) with _ | txDb <;>
    simp [saveGo, hs]

/-! ### C7: SetKeys panic condition -/

/-- C7: `SetKeys` panics if and only if the block key is non-nil with a
length other than 16, 24 or 32; a nil block key or one of a valid length
is accepted and both keys are installed. -/
theorem setKeys_panic_iff (hash : List Nat) (block : Option (List Nat)) :
    (setKeysPanics block = true ↔
      ∃ b, block = some b ∧
        b.length ≠ 16 ∧ b.length ≠ 24 ∧ b.length ≠ 32) ∧
    (setKeysPanics block = false → setKeys hash block = some (hash, block)) := by
  constructor
  · cases block with
    | none => simp [setKeysPanics]
    | some b =>
      simp [setKeysPanics, validBlockLen, goLen]
      tauto
  · intro h
    simp [setKeys, h]

/-- Concrete instance of the `SetKeys` panic condition. -/
theorem setKeys_panic_iff_witness :
    setKeysPanics (some [0]) = true ∧ setKeys [9] none = some ([9], none) :=
  ⟨(setKeys_panic_iff [9] (some [0])).1.mpr ⟨[0], rfl, by decide, by decide, by decide⟩,
   (setKeys_panic_iff [9] none).2 (by decide)⟩

/-! ### C8: Delete is idempotent -/

/-- C8: `Delete` on an id with no rows succeeds with no error and leaves
the database unchanged; a successful `Delete` removes every row for the
id regardless of name; repeating it succeeds and is a no-op. -/
theorem delete_idempotent (db : Db) (id : String) :
    deleteRun false db id = some (deleteAll db id) ∧
    (rowsOfId db id = [] → deleteRun false db id = some db) ∧
    rowsOfId (deleteAll db id) id = [] ∧
    deleteRun false (deleteAll db id) id = some (deleteAll db id) := by
  refine ⟨rfl, ?_, ?_, ?_⟩
  · intro h
    rw [rowsOfId, List.filter_eq_nil_iff] at h
    have : deleteAll db id = db := by
      rw [deleteAll, List.filter_eq_self]
      intro r hr
      simp only [Bool.not_eq_true']
      exact Bool.not_eq_true _ ▸ by
        have := h r hr
        simpa using this
    simp [deleteRun, this]
  · rw [rowsOfId, List.filter_eq_nil_iff]
    intro r hr
    rw [deleteAll, List.mem_filter] at hr
    simpa using hr.2
  · have : deleteAll (deleteAll db id) id = deleteAll db id := by
      rw [deleteAll, deleteAll, List.filter_filter]
      simp
    simp [deleteRun, this]

/-- Concrete instance: deleting an id with no rows twice, error-free. -/
theorem delete_idempotent_witness :
    deleteRun false [Row.mk "x" "n" "k" (GoValue.str "v")] "i"
      = some [Row.mk "x" "n" "k" (GoValue.str "v")] :=
  (delete_idempotent [Row.mk "x" "n" "k" (GoValue.str "v")] "i").2.1 (by decide)

/-! ### C4: failed Save rolls back -/

/-- C4: whenever `Save` returns an error from its attribute replacement
(the delete, the prepare, any insert, or begin/commit), the transaction is
rolled back and the stored rows are exactly as they were before the call:
no partial row state is visible to subsequent readers. -/
theorem save_failure_rolls_back (encodeOk : Bool) (f : SaveFaults)
    (db : Db) (id name : String) (values : Values) (now : Int)
    (herr : (saveGo encodeOk f db id name values now).err = true) :
    (saveGo encodeOk f db id name values now).db = db :=
  saveGo_err_db_unchanged encodeOk f db id name values now herr

/-- Concrete instance: a failing insert aborts the save, leaving the one
pre-existing row untouched. -/
theorem save_failure_rolls_back_witness :
    (saveGo true insertFailCfg [Row.mk "a" "b" "c" (GoValue.str "d")]
        "i" "n" [("k", GoValue.str "v")] 0).db
      = [Row.mk "a" "b" "c" (GoValue.str "d")] :=
  save_failure_rolls_back true insertFailCfg
    [Row.mk "a" "b" "c" (GoValue.str "d")] "i" "n"
    [("k", GoValue.str "v")] 0 (by decide)

/-! ### C5: cookie written before the transaction -/

/-- C5: when the cookie encodes, `Save` emits the identity cookie on every
call — including every call whose transactional row write then fails —
and a failed save leaves the rows of the id exactly as before, so the client
may hold a cookie for an id with no stored rows. -/
theorem save_cookie_before_tx (f : SaveFaults) (db : Db)
    (id name : String) (values : Values) (now : Int) :
    (saveGo true f db id name values now).cookieSet = true ∧
    ((saveGo true f db id name values now).err = true →
      (saveGo true f db id name values now).db = db) :=
  ⟨saveGo_cookieSet true f db id name values now,
   saveGo_err_db_unchanged true f db id name values now⟩

/-- Concrete instance: `Begin` fails on an empty store, yet the cookie is
emitted and no rows exist for the id. -/
theorem save_cookie_before_tx_witness :
    (saveGo true beginFailCfg [] "i" "n" [] 0).cookieSet = true ∧
    (saveGo true beginFailCfg [] "i" "n" [] 0).db = [] :=
  ⟨(save_cookie_before_tx beginFailCfg [] "i" "n" [] 0).1,
   (save_cookie_before_tx beginFailCfg [] "i" "n" [] 0).2 (by decide)⟩

/-! ### C10: cookie-encoding failures are swallowed -/

/-- C10: when encoding the identity into the cookie token fails, no cookie
is set on the response, yet `Save` proceeds with the attribute transaction
exactly as it would have with a good cookie — same error outcome, same
resulting rows — and reports no error about the cookie. -/
theorem cookie_encode_failure_swallowed (f : SaveFaults) (db : Db)
    (id name : String) (values : Values) (now : Int) :
    (saveGo false f db id name values now).cookieSet = false ∧
    (saveGo false f db id name values now).err
      = (saveGo true f db id name values now).err ∧
    (saveGo false f db id name values now).db
      = (saveGo true f db id name values now).db := by
  refine ⟨saveGo_cookieSet false f db id name values now, ?_, ?_⟩ <;>
    rcases hs : saveTx f db id name
        (mapInsert values SessionLastUpdated (GoValue.time now)) with _ | txDb <;>
      simp [saveGo, hs]

/-! ### C6: identity resolution never errors outward -/

/-- C6: for a request with no tracking cookie, and for a request whose
cookie fails to decode, `Store.id` returns the freshly generated 64-byte
identity — non-empty, never an error. -/
theorem id_mints_fresh_identity (cookie : Option String)
    (decode : String → Option String) (fresh : String)
    (hlen : fresh.length = 64)
    (hfail : cookie = none ∨ ∃ raw, cookie = some raw ∧ decode raw = none) :
    storeId cookie decode fresh = fresh ∧ storeId cookie decode fresh ≠ "" := by
  have hid : storeId cookie decode fresh = fresh := by
    rcases hfail with rfl | ⟨raw, rfl, hdec⟩
    · simp [storeId, readCookie]
    · simp [storeId, readCookie, hdec]
  refine ⟨hid, ?_⟩
  rw [hid]
  intro hcontra
  rw [hcontra] at hlen
  simp at hlen

/-- Concrete instance: no cookie at all, a concrete 64-byte fresh id. -/
theorem id_mints_fresh_identity_witness :
    storeId none (fun _ => none)
        "aaaaaaaaaaaaaaaaaaaaaaaaaaaaaaaaaaaaaaaaaaaaaaaaaaaaaaaaaaaaaaaa"
      = "aaaaaaaaaaaaaaaaaaaaaaaaaaaaaaaaaaaaaaaaaaaaaaaaaaaaaaaaaaaaaaaa" :=
  (id_mints_fresh_identity none (fun _ => none)
      "aaaaaaaaaaaaaaaaaaaaaaaaaaaaaaaaaaaaaaaaaaaaaaaaaaaaaaaaaaaaaaaa"
      (by decide) (Or.inl rfl)).1

/-! ### C2: the lastUpdated stamp is not RFC3339Nano text -/

/-- C2 counter-evidence: `Save` stamps `sess.Values[SessionLastUpdated]`
with `time.Now().UTC()` — a Go `time.Time` value, not text in any format.
After saving one session into an empty store, the stored marker is the
`time` value itself, and the cleanup sweep — which scans the marker into a
string and parses it as RFC3339Nano — fails on it for every possible
parser, aborting with an error instead of sweeping. -/
theorem save_stamp_breaks_clean :
    mapLookup (newSession (saveGo true noFaults [] "i" "n" [] 5).db "i" "n")
        SessionLastUpdated = some (GoValue.time 5) ∧
    (∀ s : String,
      mapLookup (newSession (saveGo true noFaults [] "i" "n" [] 5).db "i" "n")
          SessionLastUpdated ≠ some (GoValue.str s)) ∧
    (∀ parse : String → Option Int, ∀ inactive now2 : Int,
      clean parse (saveGo true noFaults [] "i" "n" [] 5).db inactive now2
        = none) := by
  have h1 : mapLookup
      (newSession (saveGo true noFaults [] "i" "n" [] 5).db "i" "n")
      SessionLastUpdated = some (GoValue.time 5) := by decide
  refine ⟨h1, ?_, ?_⟩
  · intro s
    rw [h1]
    simp
  · intro parse inactive now2
    rfl

/-! ### Save success path -/

/-- With no faults, the insert loop appends exactly one row per value-bag
entry. -/
theorem runInserts_noFaults (id name : String) (vals : Values) :
    ∀ tx : Db, runInserts noFaults id name vals tx
      = some (tx ++ insertRows id name vals) := by
  induction vals with
  | nil => intro tx; simp [runInserts, insertRows]
  | cons kv rest ih =>
    intro tx
    obtain ⟨k, v⟩ := kv
    rw [runInserts, if_neg (by simp [noFaults]), ih]
    simp [insertRows, List.append_assoc]

/-- A fault-free `Save` succeeds, deleting every row for the id and
inserting one row per entry of the stamped value bag. -/
theorem saveGo_success (db : Db) (id name : String) (values : Values)
    (now : Int) :
    saveGo true noFaults db id name values now
      = ⟨false,
         deleteAll db id ++ insertRows id name
           (mapInsert values SessionLastUpdated (GoValue.time now)),
         true⟩ := by
  have h1 : saveTx noFaults db id name
      (mapInsert values SessionLastUpdated (GoValue.time now))
      = some (deleteAll db id ++ insertRows id name
          (mapInsert values SessionLastUpdated (GoValue.time now))) := by
    rw [saveTx, if_neg (by simp [noFaults]), if_neg (by simp [noFaults]),
      if_neg (by simp [noFaults]), runInserts_noFaults]
    simp [noFaults]
  simp [saveGo, h1]

/-- After a delete of every row for `id`, no row matches (id, name). -/
theorem rowsFor_deleteAll (db : Db) (id name : String) :
    rowsFor (deleteAll db id) id name = [] := by
  rw [rowsFor, deleteAll, List.filter_filter, List.filter_eq_nil_iff]
  intro r _
  cases h : r.id == id <;> simp [h]

/-- Every inserted row matches the (id, name) it was bound to. -/
theorem rowsFor_insertRows (id name : String) (vals : Values) :
    rowsFor (insertRows id name vals) id name = insertRows id name vals := by
  rw [rowsFor, List.filter_eq_self]
  intro r hr
  rw [insertRows, List.mem_map] at hr
  obtain ⟨kv, _, rfl⟩ := hr
  simp

/-- Projecting the inserted rows back to (key, value) pairs recovers the
value bag. -/
theorem map_insertRows (id name : String) (vals : Values) :
    (insertRows id name vals).map (fun r => (r.key, r.value)) = vals := by
  induction vals with
  | nil => rfl
  | cons kv rest ih =>
    obtain ⟨k, v⟩ := kv
    rw [insertRows, List.map_cons, List.map_cons]
    rw [insertRows] at ih
    rw [ih]

/-- Inserting an absent key appends the binding at the end. -/
theorem mapInsert_not_mem (m : Values) (k : String) (v : GoValue)
    (h : k ∉ keys m) : mapInsert m k v = m ++ [(k, v)] := by
  induction m with
  | nil => rfl
  | cons kv rest ih =>
    obtain ⟨k2, v2⟩ := kv
    rw [keys, List.map_cons, List.mem_cons] at h
    push_neg at h
    rw [mapInsert, if_neg (fun hc => h.1 hc.symm), List.cons_append,
      ih h.2]

/-- Folding `mapInsert` over bindings with distinct keys, disjoint from
the keys of the accumulator, appends them in order. -/
theorem foldl_mapInsert (l : Values) :
    ∀ acc : Values, (keys l).Nodup → (∀ k ∈ keys l, k ∉ keys acc) →
    l.foldl (fun a kv => mapInsert a kv.1 kv.2) acc = acc ++ l := by
  induction l with
  | nil => intro acc _ _; simp
  | cons kv rest ih =>
    intro acc hnd hdisj
    obtain ⟨k, v⟩ := kv
    rw [keys, List.map_cons, List.nodup_cons] at hnd
    have hk : k ∉ keys acc := hdisj k (by simp [keys])
    rw [List.foldl_cons]
    have step : mapInsert acc (k, v).1 (k, v).2 = acc ++ [(k, v)] :=
      mapInsert_not_mem acc k v hk
    rw [step, ih (acc ++ [(k, v)]) hnd.2 ?_, List.append_assoc,
      List.singleton_append]
    intro k2 hk2
    rw [keys, List.map_append] at *
    simp only [List.mem_append] at *
    rintro (hacc | hsing)
    · exact hdisj k2 (by simp [keys, hk2]) hacc
    · simp [keys] at hsing
      exact hnd.1 (hsing ▸ hk2)

/-- The keys after a `mapInsert`: unchanged when the key was present,
otherwise the key is appended. -/
theorem keys_mapInsert (m : Values) (k : String) (v : GoValue) :
    keys (mapInsert m k v)
      = if k ∈ keys m then keys m else keys m ++ [k] := by
  induction m with
  | nil => simp [mapInsert, keys]
  | cons kv rest ih =>
    obtain ⟨k2, v2⟩ := kv
    by_cases h : k2 = k
    · subst h
      simp [mapInsert, keys]
    · rw [mapInsert, if_neg h]
      rw [show keys ((k2, v2) :: mapInsert rest k v)
            = k2 :: keys (mapInsert rest k v) from rfl]
      rw [ih]
      by_cases hr : k ∈ keys rest
      · rw [if_pos hr]
        rw [if_pos (show k ∈ keys ((k2, v2) :: rest) from
          List.mem_cons_of_mem _ hr)]
        rfl
      · rw [if_neg hr]
        rw [if_neg (show k ∉ keys ((k2, v2) :: rest) from ?_)]
        · rfl
        · intro hc
          rcases List.mem_cons.mp hc with h1 | h2
          · exact h h1.symm
          · exact hr h2

/-- Inserting into a value bag preserves distinctness of keys. -/
theorem nodup_keys_mapInsert (m : Values) (k : String) (v : GoValue)
    (h : (keys m).Nodup) : (keys (mapInsert m k v)).Nodup := by
  rw [keys_mapInsert]
  by_cases hmem : k ∈ keys m
  · rwa [if_pos hmem]
  · rw [if_neg hmem]
    rw [List.nodup_append]
    exact ⟨h, List.nodup_singleton k, by
      intro a ha hb
      simp at hb
      exact hmem (hb ▸ ha)⟩

/-- Loading the freshly inserted rows of a distinct-key value bag returns
exactly that bag. -/
theorem newSession_after_insert (db : Db) (id name : String)
    (vals : Values) (hnd : (keys vals).Nodup) :
    newSession (deleteAll db id ++ insertRows id name vals) id name
      = vals := by
  rw [newSession, rowsFor, List.filter_append]
  rw [show List.filter (fun r => r.id == id && r.name == name)
        (deleteAll db id) = [] from rowsFor_deleteAll db id name]
  rw [show List.filter (fun r => r.id == id && r.name == name)
        (insertRows id name vals) = insertRows id name vals from
      rowsFor_insertRows id name vals]
  rw [List.nil_append, map_insertRows]
  rw [foldl_mapInsert vals [] hnd (by simp [keys])]
  simp

/-! ### C1: Save is a full replace -/

/-- C1: a fault-free `Save` of a value bag `M` succeeds, the rows stored
for (id, name) afterwards are exactly `M` with the lastUpdated marker
stamped in — one row per binding, independent of everything previously
stored — and a subsequent `New` for the same (id, name) returns exactly
that mapping: a full replace, never a merge with any prior save. -/
theorem save_full_replace (db : Db) (id name : String) (values : Values)
    (now : Int) (hnd : (keys values).Nodup) :
    (saveGo true noFaults db id name values now).err = false ∧
    rowsFor (saveGo true noFaults db id name values now).db id name
      = insertRows id name
          (mapInsert values SessionLastUpdated (GoValue.time now)) ∧
    newSession (saveGo true noFaults db id name values now).db id name
      = mapInsert values SessionLastUpdated (GoValue.time now) := by
  rw [saveGo_success]
  refine ⟨rfl, ?_, ?_⟩
  · rw [rowsFor, List.filter_append]
    rw [show List.filter (fun r => r.id == id && r.name == name)
          (deleteAll db id) = [] from rowsFor_deleteAll db id name]
    rw [show List.filter (fun r => r.id == id && r.name == name)
          (insertRows id name
            (mapInsert values SessionLastUpdated (GoValue.time now)))
          = insertRows id name
              (mapInsert values SessionLastUpdated (GoValue.time now)) from
        rowsFor_insertRows id name _]
    rw [List.nil_append]
  · exact newSession_after_insert db id name _
      (nodup_keys_mapInsert values SessionLastUpdated (GoValue.time now) hnd)

/-- Concrete instance: saving `[("a", "x")]` over a store holding stale
rows for the same id (under both the same and another name) leaves
exactly the stamped bag and loads it back. -/
theorem save_full_replace_witness :
    newSession (saveGo true noFaults
        [Row.mk "i" "n" "junk" (GoValue.str "z"),
         Row.mk "i" "m" "o" (GoValue.str "q")] "i" "n"
        [("a", GoValue.str "x")] 3).db "i" "n"
      = [("a", GoValue.str "x"), (SessionLastUpdated, GoValue.time 3)] := by
  have h := save_full_replace
    [Row.mk "i" "n" "junk" (GoValue.str "z"),
     Row.mk "i" "m" "o" (GoValue.str "q")] "i" "n"
    [("a", GoValue.str "x")] 3 (by decide)
  rw [h.2.2]
  decide

/-! ### C9: Save deletes by id alone -/

/-- C9: the replacement step of `Save` deletes rows scoped by id alone:
after a
fault-free save of (id, name), no row for the same id under any other
name survives — only rows for the saved (id, name) remain for that id. -/
theorem save_destroys_other_names (db : Db) (id name n2 : String)
    (values : Values) (now : Int) (hne : n2 ≠ name) :
    rowsFor (saveGo true noFaults db id name values now).db id n2 = [] ∧
    ∀ r ∈ (saveGo true noFaults db id name values now).db,
      r.id = id → r.name = name := by
  rw [saveGo_success]
  constructor
  · rw [rowsFor, List.filter_append]
    rw [show List.filter (fun r => r.id == id && r.name == n2)
          (deleteAll db id) = [] from rowsFor_deleteAll db id n2]
    rw [List.nil_append, List.filter_eq_nil_iff]
    intro r hr
    rw [insertRows, List.mem_map] at hr
    obtain ⟨kv, _, rfl⟩ := hr
    simp [Ne.symm hne]
  · intro r hr _
    rw [List.mem_append] at hr
    rcases hr with hl | hrr
    · rw [deleteAll, List.mem_filter] at hl
      have := hl.2
      simp_all
    · rw [insertRows, List.mem_map] at hrr
      obtain ⟨kv, _, rfl⟩ := hrr
      rfl

/-- Concrete instance: a second named session sharing the id is destroyed
by the save. -/
theorem save_destroys_other_names_witness :
    rowsFor (saveGo true noFaults
        [Row.mk "i" "m" "o" (GoValue.str "q")] "i" "n" [] 0).db "i" "m"
      = [] :=
  (save_destroys_other_names [Row.mk "i" "m" "o" (GoValue.str "q")]
    "i" "n" "m" [] 0 (by decide)).1

/-! ### C3: Clean deletes exactly the stale ids -/

/-- The sweep loop, on markers that all parse, returns the database with
exactly the rows of stale ids removed. -/
theorem cleanLoop_filter (parse : String → Option Int) (cutoff : Int) :
    ∀ (ms : List (String × GoValue)) (db : Db),
    allParse parse ms = true →
    cleanLoop parse cutoff ms db
      = some (db.filter (fun r => !(staleB parse cutoff ms r.id))) := by
  intro ms
  induction ms with
  | nil =>
    intro db _
    rw [cleanLoop]
    congr 1
    symm
    rw [List.filter_eq_self]
    intro r _
    simp [staleB]
  | cons m rest ih =>
    intro db hall
    obtain ⟨i, v⟩ := m
    rw [allParse, List.all_cons, Bool.and_eq_true] at hall
    rw [allParse] at ih
    obtain ⟨hv, hrest⟩ := hall
    cases v with
    | time t => simp at hv
    | str s =>
      simp only at hv
      obtain ⟨t, ht⟩ := Option.isSome_iff_exists.mp hv
      rw [cleanLoop, ht]
      show (if t < cutoff then cleanLoop parse cutoff rest (deleteAll db i)
        else cleanLoop parse cutoff rest db) = _
      by_cases hlt : t < cutoff
      · rw [if_pos hlt, ih (deleteAll db i) hrest]
        congr 1
        rw [deleteAll, List.filter_filter]
        apply List.filter_congr
        intro r _
        have hcons : staleB parse cutoff ((i, GoValue.str s) :: rest) r.id
            = ((i == r.id) || staleB parse cutoff rest r.id) := by
          simp only [staleB, List.any_cons]
          rw [ht]
          rw [show (match some t with
               | some t => decide (t < cutoff)
               | none => false) = decide (t < cutoff) from rfl]
          rw [decide_eq_true hlt, Bool.and_true]
        rw [hcons, Bool.not_or]
        by_cases hri : r.id = i
        · simp [hri]
        · rw [beq_eq_false_iff_ne.mpr hri, beq_eq_false_iff_ne.mpr (Ne.symm hri)]
          simp [Bool.and_comm]
      · rw [if_neg hlt, ih db hrest]
        congr 1
        apply List.filter_congr
        intro r _
        have hcons : staleB parse cutoff ((i, GoValue.str s) :: rest) r.id
            = staleB parse cutoff rest r.id := by
          simp only [staleB, List.any_cons]
          rw [ht]
          rw [show (match some t with
               | some t => decide (t < cutoff)
               | none => false) = decide (t < cutoff) from rfl]
          rw [decide_eq_false hlt]
          simp
        rw [hcons]

/-- C3: for every inactivity threshold, a sweep whose scanned markers all
parse succeeds and returns the store with exactly the rows of every id
having a marker strictly before `cutoff = now - inactive` deleted: every
row of a stale id is gone, every row of a non-stale id survives, and the
result is precisely the original row list filtered by staleness of the
id of the row. -/
theorem clean_deletes_stale (parse : String → Option Int) (db : Db)
    (inactive now : Int)
    (hall : allParse parse (scanLastUpdated db) = true) :
    ∃ dbres, clean parse db inactive now = some dbres ∧
      (∀ r ∈ db,
        staleB parse (now - inactive) (scanLastUpdated db) r.id = true →
          r ∉ dbres) ∧
      (∀ r ∈ db,
        staleB parse (now - inactive) (scanLastUpdated db) r.id = false →
          r ∈ dbres) ∧
      dbres = db.filter
        (fun r => !(staleB parse (now - inactive) (scanLastUpdated db) r.id)) := by
  refine ⟨db.filter
      (fun r => !(staleB parse (now - inactive) (scanLastUpdated db) r.id)),
    cleanLoop_filter parse (now - inactive) (scanLastUpdated db) db hall,
    ?_, ?_, rfl⟩
  · intro r _ hstale hmem
    rw [List.mem_filter] at hmem
    rw [hstale] at hmem
    simp at hmem
  · intro r hr hfresh
    rw [List.mem_filter]
    exact ⟨hr, by rw [hfresh]; rfl⟩

/-- Concrete instance: with threshold 3 evaluated at time 8 (cutoff 5),
the id whose marker reads instant 1 loses all its rows and the id whose
marker reads instant 9 keeps its row. -/
theorem clean_deletes_stale_witness :
    clean (fun s => if s = "1" then some 1 else
             if s = "9" then some 9 else none)
        [Row.mk "old" "n" SessionLastUpdated (GoValue.str "1"),
         Row.mk "old" "n" "k" (GoValue.str "x"),
         Row.mk "new" "n" SessionLastUpdated (GoValue.str "9")] 3 8
      = some [Row.mk "new" "n" SessionLastUpdated (GoValue.str "9")] := by
  obtain ⟨dbres, hclean, _, _, hfilter⟩ := clean_deletes_stale
    (fun s => if s = "1" then some 1 else if s = "9" then some 9 else none)
    [Row.mk "old" "n" SessionLastUpdated (GoValue.str "1"),
     Row.mk "old" "n" "k" (GoValue.str "x"),
     Row.mk "new" "n" SessionLastUpdated (GoValue.str "9")] 3 8 (by decide)
  rw [hclean, hfilter]
  decide
